import Mathlib

/-!
Verification of the aem-assets plugin core (`src/scripts/aem-assets.js` and
the near-duplicate options-record variant `src/unnamed/part_000`): the URL
query codec (`appendQueryParams`), the picture synthesizers
(`createOptimizedPicture` and friends), the decoration passes
(`decorateExternalImages`, `decorateImagesFromAlt`) and the block loader
(`loadBlock`).  JS URLs are modelled structurally (origin, pathname, ordered
query pair list); `URLSearchParams` is the ordered pair list with the
standard `set` semantics (replace the first occurrence of the key, drop later
duplicates, append when absent).
-/

namespace AemAssets

/-- A URL query component: the ordered key/value pair list underlying JS
`URLSearchParams`. -/
abbrev Query := List (String × String)

/-- The keys of a query, in order (duplicates kept). -/
def qkeys (q : Query) : List String := q.map Prod.fst

/-- How many pairs of `q` carry key `k`. -/
def countKey : Query → String → Nat
  | [], _ => 0
  | kv :: rest, k => (if kv.1 = k then 1 else 0) + countKey rest k

/-- Removal of every pair with key `k`, as performed by `URLSearchParams.set`
on occurrences of the key past the first, and by `delete`. -/
def removeParam (q : Query) (k : String) : Query :=
  q.filter (fun kv => kv.1 != k)

/-- JS `URLSearchParams.set(k, v)`: overwrite the value of the first pair
with key `k` and drop any later pair with key `k`; append `(k, v)` when `k`
is absent. -/
def setParam : Query → String → String → Query
  | [], k, v => [(k, v)]
  | kv :: rest, k, v =>
    if kv.1 = k then (k, v) :: removeParam rest k
    else kv :: setParam rest k v

/-- The fixed allow-list of `appendQueryParams`
(src/scripts/aem-assets.js:120 and src/unnamed/part_000:121).  Note that
`format` is not on it. -/
def allowedParams : List String :=
  ["rotate", "crop", "flip", "size", "preferwebp", "height", "width", "quality", "smartcrop"]

/-- The parameter loop of `appendQueryParams`
(src/scripts/aem-assets.js:121-125): for each `(key, value)` pair of
`params` in order, `searchParams.set(key, value)` when the key is on the
allow-list, and nothing otherwise (no error is raised for dropped keys; the
loop is total). -/
def applyParams (q : Query) (params : Query) : Query :=
  params.foldl (fun acc kv => if kv.1 ∈ allowedParams then setParam acc kv.1 kv.2 else acc) q

/-- A JS `URL` value: origin (scheme plus host), pathname, and the mutable
query component.  Fragments never appear in the relevant code paths. -/
structure Url where
  origin : String
  pathname : String
  query : Query
  deriving DecidableEq, Repr

/-- Serialization of a query, as `URLSearchParams.toString` (values are kept
verbatim; percent-encoding round-trips through `new URL` and is not
modelled). -/
def queryToString (q : Query) : String :=
  String.intercalate "&" (q.map (fun kv => kv.1 ++ "=" ++ kv.2))

/-- `url.toString()`. -/
def Url.toString (u : Url) : String :=
  u.origin ++ u.pathname ++ (if u.query.isEmpty then "" else "?" ++ queryToString u.query)

/-- `appendQueryParams(url, params)` (src/scripts/aem-assets.js:117-128,
identical in src/unnamed/part_000:118-129): run the allow-listed `set` loop
over the mutable `url`, write `url.search` back, and return `url.toString()`.
Modelled as returning the mutated URL together with the returned string. -/
def appendQueryParams (url : Url) (params : Query) : Url × String :=
  let u : Url := { url with query := applyParams url.query params }
  (u, u.toString)

/-! ### Lemmas about the query primitives -/

theorem mem_removeParam {q : Query} {k a b : String} :
    (a, b) ∈ removeParam q k ↔ (a, b) ∈ q ∧ a ≠ k := by
  simp [removeParam, List.mem_filter, bne_iff_ne]

theorem fst_mem_qkeys {q : Query} {kv : String × String} (h : kv ∈ q) : kv.1 ∈ qkeys q :=
  List.mem_map.mpr ⟨kv, h, rfl⟩

theorem countKey_eq_zero_iff {q : Query} {k : String} :
    countKey q k = 0 ↔ ∀ b, (k, b) ∉ q := by
  induction q with
  | nil => simp [countKey]
  | cons kv rest ih =>
    obtain ⟨a, b⟩ := kv
    simp only [countKey, List.mem_cons]
    constructor
    · intro h0 b' hmem
      rcases hmem with hc | hm
      · injection hc with h1 h2
        subst h1
        rw [if_pos rfl] at h0
        omega
      · have hz : countKey rest k = 0 := by omega
        exact ih.mp hz b' hm
    · intro hall
      have h1 : ¬ (a = k) := by
        intro he
        exact hall b (Or.inl (by rw [he]))
      rw [if_neg h1]
      have hz := ih.mpr (fun b' hm => hall b' (Or.inr hm))
      omega

theorem removeParam_eq_self {q : Query} {k : String} (h : countKey q k = 0) :
    removeParam q k = q := by
  apply List.filter_eq_self.mpr
  intro kv hmem
  obtain ⟨a, b⟩ := kv
  have hne : a ≠ k := by
    intro he
    subst he
    exact countKey_eq_zero_iff.mp h b hmem
  simpa [bne_iff_ne] using hne

theorem countKey_removeParam_self (q : Query) (k : String) :
    countKey (removeParam q k) k = 0 := by
  induction q with
  | nil => rfl
  | cons kv rest ih =>
    obtain ⟨a, b⟩ := kv
    by_cases h : a = k
    · simpa [removeParam, List.filter_cons, h] using ih
    · simp only [removeParam, List.filter_cons] at ih ⊢
      simp [bne_iff_ne, h, countKey, ih]

theorem countKey_removeParam_ne {q : Query} {k a : String} (h : a ≠ k) :
    countKey (removeParam q k) a = countKey q a := by
  induction q with
  | nil => rfl
  | cons kv rest ih =>
    obtain ⟨c, b⟩ := kv
    by_cases hc : c = k
    · subst hc
      have hca : ¬ (c = a) := fun he => h (by rw [he])
      simp only [removeParam, List.filter_cons] at ih ⊢
      simp [countKey, hca, ih]
    · simp only [removeParam, List.filter_cons] at ih ⊢
      simp [bne_iff_ne, hc, countKey, ih]

theorem mem_setParam_self (q : Query) (k v : String) : (k, v) ∈ setParam q k v := by
  induction q with
  | nil => simp [setParam]
  | cons kv rest ih =>
    by_cases h : kv.1 = k
    · simp [setParam, h]
    · simp [setParam, h, ih]

theorem mem_setParam_of_ne {q : Query} {k v a b : String} (h : a ≠ k) :
    ((a, b) ∈ setParam q k v ↔ (a, b) ∈ q) := by
  induction q with
  | nil =>
    simp only [setParam, List.mem_singleton, List.not_mem_nil, iff_false]
    intro he
    injection he with h1 h2
    exact h h1
  | cons kv rest ih =>
    by_cases hk : kv.1 = k
    · obtain ⟨c, d⟩ := kv
      subst hk
      simp only [setParam, if_pos rfl]
      constructor
      · intro hmem
        rcases List.mem_cons.mp hmem with hc | hm
        · injection hc with h1 h2
          exact absurd h1 h
        · exact List.mem_cons_of_mem _ (mem_removeParam.mp hm).1
      · intro hmem
        rcases List.mem_cons.mp hmem with hc | hm
        · injection hc with h1 h2
          exact absurd h1 h
        · exact List.mem_cons_of_mem _ (mem_removeParam.mpr ⟨hm, h⟩)
    · simp [setParam, hk, ih]

theorem mem_setParam_cases {q : Query} {k v a b : String}
    (h : (a, b) ∈ setParam q k v) : (a, b) ∈ q ∨ (a = k ∧ b = v) := by
  induction q with
  | nil =>
    simp only [setParam, List.mem_singleton] at h
    injection h with h1 h2
    exact Or.inr ⟨h1, h2⟩
  | cons kv rest ih =>
    by_cases hk : kv.1 = k
    · rw [setParam, if_pos hk] at h
      rcases List.mem_cons.mp h with hc | hm
      · injection hc with h1 h2
        exact Or.inr ⟨h1, h2⟩
      · exact Or.inl (List.mem_cons_of_mem _ (mem_removeParam.mp hm).1)
    · rw [setParam, if_neg hk] at h
      rcases List.mem_cons.mp h with hc | hm
      · exact Or.inl (by rw [hc]; exact List.mem_cons_self _ _)
      · rcases ih hm with h1 | h2
        · exact Or.inl (List.mem_cons_of_mem _ h1)
        · exact Or.inr h2

theorem countKey_setParam_self (q : Query) (k v : String) :
    countKey (setParam q k v) k = 1 := by
  induction q with
  | nil => simp [setParam, countKey]
  | cons kv rest ih =>
    obtain ⟨c, b⟩ := kv
    by_cases h : c = k
    · simp [setParam, h, countKey, countKey_removeParam_self]
    · simp [setParam, h, countKey, ih]

theorem countKey_setParam_ne {q : Query} {k v a : String} (h : a ≠ k) :
    countKey (setParam q k v) a = countKey q a := by
  induction q with
  | nil =>
    have hka : ¬ (k = a) := fun he => h (by rw [he])
    simp [setParam, countKey, hka]
  | cons kv rest ih =>
    obtain ⟨c, b⟩ := kv
    by_cases hk : c = k
    · subst hk
      have hca : ¬ (c = a) := fun he => h (by rw [he])
      simp [setParam, countKey, hca, countKey_removeParam_ne h]
    · simp [setParam, hk, countKey, ih]

theorem setParam_eq_self {q : Query} {k v : String}
    (hc : countKey q k = 1) (hm : (k, v) ∈ q) : setParam q k v = q := by
  induction q with
  | nil => exact absurd hm (List.not_mem_nil _)
  | cons kv rest ih =>
    obtain ⟨a, b⟩ := kv
    by_cases h : a = k
    · subst h
      have hrest : countKey rest a = 0 := by
        have hc2 : (if a = a then 1 else 0) + countKey rest a = 1 := hc
        rw [if_pos rfl] at hc2
        omega
      have hv : b = v := by
        rcases List.mem_cons.mp hm with hc' | hm'
        · injection hc' with h1 h2
          exact h2.symm
        · exact absurd hm' (countKey_eq_zero_iff.mp hrest v)
      subst hv
      simp [setParam, removeParam_eq_self hrest]
    · have hc' : countKey rest k = 1 := by
        simp only [countKey, if_neg h] at hc
        omega
      have hm' : (k, v) ∈ rest := by
        rcases List.mem_cons.mp hm with hc'' | hm'
        · injection hc'' with h1 h2
          exact absurd h1.symm h
        · exact hm'
      simp [setParam, h, ih hc' hm']

theorem applyParams_nil (q : Query) : applyParams q [] = q := rfl

theorem applyParams_cons (q : Query) (kv : String × String) (ps : Query) :
    applyParams q (kv :: ps) =
      applyParams (if kv.1 ∈ allowedParams then setParam q kv.1 kv.2 else q) ps := rfl

theorem mem_applyParams_untouched {ps : Query} {a : String}
    (h : ∀ kv ∈ ps, kv.1 ∈ allowedParams → kv.1 ≠ a) :
    ∀ {q : Query} {b : String}, ((a, b) ∈ applyParams q ps ↔ (a, b) ∈ q) := by
  induction ps with
  | nil =>
    intro q b
    rfl
  | cons kv rest ih =>
    intro q b
    rw [applyParams_cons]
    by_cases hal : kv.1 ∈ allowedParams
    · rw [if_pos hal]
      rw [ih (fun kv' h' => h kv' (List.mem_cons_of_mem _ h'))]
      exact mem_setParam_of_ne (fun he => h kv (List.mem_cons_self _ _) hal he.symm)
    · rw [if_neg hal]
      exact ih (fun kv' h' => h kv' (List.mem_cons_of_mem _ h'))

theorem countKey_applyParams_untouched {ps : Query} {a : String}
    (h : ∀ kv ∈ ps, kv.1 ∈ allowedParams → kv.1 ≠ a) :
    ∀ {q : Query}, countKey (applyParams q ps) a = countKey q a := by
  induction ps with
  | nil =>
    intro q
    rfl
  | cons kv rest ih =>
    intro q
    rw [applyParams_cons]
    by_cases hal : kv.1 ∈ allowedParams
    · rw [if_pos hal]
      rw [ih (fun kv' h' => h kv' (List.mem_cons_of_mem _ h'))]
      exact countKey_setParam_ne (fun he => h kv (List.mem_cons_self _ _) hal he.symm)
    · rw [if_neg hal]
      exact ih (fun kv' h' => h kv' (List.mem_cons_of_mem _ h'))

theorem qkeys_cons (kv : String × String) (q : Query) :
    qkeys (kv :: q) = kv.1 :: qkeys q := rfl

theorem mem_applyParams_of_mem {ps : Query} (hnd : (qkeys ps).Nodup) :
    ∀ {q : Query} {kv : String × String}, kv ∈ ps → kv.1 ∈ allowedParams →
      kv ∈ applyParams q ps := by
  induction ps with
  | nil =>
    intro q kv hmem
    exact absurd hmem (List.not_mem_nil _)
  | cons kv0 rest ih =>
    intro q kv hmem hal
    rw [qkeys_cons, List.nodup_cons] at hnd
    rw [applyParams_cons]
    rcases List.mem_cons.mp hmem with hc | hm
    · subst hc
      obtain ⟨a, b⟩ := kv
      rw [if_pos hal]
      have huntouched : ∀ kv' ∈ rest, kv'.1 ∈ allowedParams → kv'.1 ≠ a := by
        intro kv' h' _ he
        exact hnd.1 (by rw [← he]; exact @fst_mem_qkeys rest kv' h')
      exact (mem_applyParams_untouched huntouched).mpr (mem_setParam_self q a b)
    · exact ih hnd.2 hm hal

theorem countKey_applyParams_of_mem {ps : Query} (hnd : (qkeys ps).Nodup) :
    ∀ {q : Query} {k v : String}, (k, v) ∈ ps → k ∈ allowedParams →
      countKey (applyParams q ps) k = 1 := by
  induction ps with
  | nil =>
    intro q k v hmem
    exact absurd hmem (List.not_mem_nil _)
  | cons kv0 rest ih =>
    intro q k v hmem hal
    rw [qkeys_cons, List.nodup_cons] at hnd
    rw [applyParams_cons]
    rcases List.mem_cons.mp hmem with hc | hm
    · have hkv0 : kv0 = (k, v) := hc.symm
      subst hkv0
      rw [if_pos hal]
      have huntouched : ∀ kv' ∈ rest, kv'.1 ∈ allowedParams → kv'.1 ≠ k := by
        intro kv' h' _ he
        exact hnd.1 (by rw [← he]; exact @fst_mem_qkeys rest kv' h')
      rw [countKey_applyParams_untouched huntouched]
      exact countKey_setParam_self q k v
    · exact ih hnd.2 hm hal

theorem mem_applyParams_cases {ps : Query} :
    ∀ {q : Query} {kv : String × String}, kv ∈ applyParams q ps →
      kv ∈ q ∨ (kv.1 ∈ allowedParams ∧ kv.1 ∈ qkeys ps) := by
  induction ps with
  | nil =>
    intro q kv h
    exact Or.inl h
  | cons kv0 rest ih =>
    intro q kv h
    rw [applyParams_cons] at h
    by_cases hal : kv0.1 ∈ allowedParams
    · rw [if_pos hal] at h
      rcases ih h with h1 | h2
      · obtain ⟨a, b⟩ := kv
        rcases mem_setParam_cases h1 with h3 | h4
        · exact Or.inl h3
        · refine Or.inr ⟨by rw [h4.1]; exact hal, ?_⟩
          rw [qkeys_cons]
          rw [show ((a, b).1 : String) = a from rfl, h4.1]
          exact List.mem_cons_self _ _
      · exact Or.inr ⟨h2.1, by rw [qkeys_cons]; exact List.mem_cons_of_mem _ h2.2⟩
    · rw [if_neg hal] at h
      rcases ih h with h1 | h2
      · exact Or.inl h1
      · exact Or.inr ⟨h2.1, by rw [qkeys_cons]; exact List.mem_cons_of_mem _ h2.2⟩

theorem applyParams_eq_self {ps : Query} :
    ∀ {q : Query}, (∀ kv ∈ ps, kv.1 ∈ allowedParams → countKey q kv.1 = 1 ∧ kv ∈ q) →
      applyParams q ps = q := by
  induction ps with
  | nil =>
    intro q _
    rfl
  | cons kv0 rest ih =>
    intro q h
    rw [applyParams_cons]
    by_cases hal : kv0.1 ∈ allowedParams
    · rw [if_pos hal]
      obtain ⟨hc, hm⟩ := h kv0 (List.mem_cons_self _ _) hal
      rw [setParam_eq_self hc hm]
      exact ih (fun kv' h' => h kv' (List.mem_cons_of_mem _ h'))
    · rw [if_neg hal]
      exact ih (fun kv' h' => h kv' (List.mem_cons_of_mem _ h'))

theorem applyParams_idem {q ps : Query} (hnd : (qkeys ps).Nodup) :
    applyParams (applyParams q ps) ps = applyParams q ps := by
  apply applyParams_eq_self
  intro kv hkv hal
  obtain ⟨a, b⟩ := kv
  exact ⟨countKey_applyParams_of_mem hnd hkv hal, mem_applyParams_of_mem hnd hkv hal⟩

/-! ### Claim C2 and claim C9: the query codec contract -/

/-- Example URL with a non-allow-listed author parameter, used by witnesses. -/
def exUrlQ : Url :=
  { origin := "https://example.com", pathname := "/media.jpg", query := [("foo", "1")] }

/-- C2: for every URL and parameter map (a map has pairwise-distinct keys),
`appendQueryParams` sets/overwrites on the query component exactly those
parameter keys that are on the fixed allow-list; a key outside the allow-list
is silently dropped — a pair with such a key is on the result exactly when it
already was on the URL, so nothing outside the allow-list is ever added.  The
modelled loop is total: a dropped key skips the `set` instead of raising. -/
theorem appendQueryParams_allowlist_filter (url : Url) (params : Query)
    (hnd : (qkeys params).Nodup) :
    (∀ kv ∈ params, kv.1 ∈ allowedParams → kv ∈ (appendQueryParams url params).1.query) ∧
    (∀ a, a ∉ allowedParams → ∀ b : String,
      ((a, b) ∈ (appendQueryParams url params).1.query ↔ (a, b) ∈ url.query)) := by
  constructor
  · intro kv hkv hal
    exact mem_applyParams_of_mem hnd hkv hal
  · intro a hal b
    apply mem_applyParams_untouched
    intro kv' h' hal' he
    rw [he] at hal'
    exact hal hal'

/-- Witness for C2 at a concrete URL and parameter map: the allow-listed
`crop` is set, the non-allow-listed `bar` is dropped. -/
theorem appendQueryParams_allowlist_filter_witness :
    ("crop", "2") ∈ (appendQueryParams exUrlQ [("crop", "2"), ("bar", "3")]).1.query ∧
    (("bar", "3") ∈ (appendQueryParams exUrlQ [("crop", "2"), ("bar", "3")]).1.query ↔
      ("bar", "3") ∈ exUrlQ.query) :=
  ⟨(appendQueryParams_allowlist_filter exUrlQ [("crop", "2"), ("bar", "3")] (by decide)).1
      ("crop", "2") (by decide) (by decide),
   (appendQueryParams_allowlist_filter exUrlQ [("crop", "2"), ("bar", "3")] (by decide)).2
      "bar" (by decide) "3"⟩

/-- C9: `appendQueryParams` is idempotent — applying it a second time with
the same parameter map to the URL it produced returns the same mutated URL
and the same serialized string. -/
theorem appendQueryParams_idem (url : Url) (params : Query)
    (hnd : (qkeys params).Nodup) :
    appendQueryParams (appendQueryParams url params).1 params =
      appendQueryParams url params := by
  have h : applyParams (applyParams url.query params) params = applyParams url.query params :=
    applyParams_idem hnd
  simp [appendQueryParams, h]

/-- Witness for C9 at a concrete URL and parameter map. -/
theorem appendQueryParams_idem_witness :
    appendQueryParams (appendQueryParams exUrlQ [("width", "750"), ("foo", "9")]).1
        [("width", "750"), ("foo", "9")] =
      appendQueryParams exUrlQ [("width", "750"), ("foo", "9")] :=
  appendQueryParams_idem exUrlQ [("width", "750"), ("foo", "9")] (by decide)

/-! ### The picture synthesizers -/

/-- A breakpoint entry (`{ media?, width?, smartcrop? }`), as used by every
synthesizer; `none` models an absent (JS `undefined`) field. -/
structure Breakpoint where
  media : Option String := none
  width : Option String := none
  smartcrop : Option String := none
  deriving DecidableEq, Repr

/-- JS string conversion applied by the `URLSearchParams` record initializer:
an `undefined` field stringifies to `"undefined"`. -/
def jsOptString (o : Option String) : String := o.getD "undefined"

/-- `pathname.substring(pathname.lastIndexOf('.') + 1)`
(src/scripts/aem-assets.js:163): the text after the last dot of the
pathname, and the whole pathname when it has no dot (JS `lastIndexOf`
returns `-1` then, so `substring(0)` is the whole string). -/
def extAfterLastDot (pathname : String) : String :=
  if pathname.toList.contains '.' then
    String.mk ((pathname.toList.reverse.takeWhile (fun c => c != '.')).reverse)
  else pathname

/-- A child of a synthesized `<picture>`: either a `<source>` (with optional
`media` and `type` attributes and a `srcset` URL) or an `<img>` (with
`loading`, `alt` and a `src` URL).  URL-valued attributes are kept
structurally; serializing with `Url.toString` and re-parsing with `new URL`
round-trips, so the copy loop of `decorateExternalImages` reads them back
unchanged. -/
inductive PItem where
  | source (media : Option String) (typeAttr : Option String) (srcset : Url)
  | img (loading : String) (alt : String) (src : Url)
  deriving DecidableEq, Repr

/-- The URL attribute of a picture child (`srcset` of a source, `src` of an
img). -/
def PItem.urlOf : PItem → Url
  | .source _ _ u => u
  | .img _ _ u => u

/-- The `media` attribute of a picture child. -/
def PItem.mediaOf : PItem → Option String
  | .source m _ _ => m
  | .img _ _ _ => none

/-- The `type` attribute of a picture child. -/
def PItem.typeOf : PItem → Option String
  | .source _ t _ => t
  | .img _ _ _ => none

/-- Whether the child is a type-negotiated `<source>` (a `type` attribute is
present). -/
def isNegotiatedSource : PItem → Bool
  | .source _ (some _) _ => true
  | _ => false

/-- Whether the child is a `<source>` without a `type` attribute (the
same-format fallback sources). -/
def isPlainSource : PItem → Bool
  | .source _ none _ => true
  | _ => false

/-- Whether the child is an `<img>`. -/
def isImgItem : PItem → Bool
  | .img _ _ _ => true
  | _ => false

/-- A synthesized `<picture>` element: ordered children, class list, and the
`data-smartcrop-status` attribute. -/
structure PictureEl where
  children : List PItem
  classes : List String := []
  smartcropStatus : Option String := none
  deriving DecidableEq, Repr

/-- The default breakpoints of `createOptimizedPicture`
(src/scripts/aem-assets.js:159). -/
def defaultBreakpoints : List Breakpoint :=
  [{ media := some "(min-width: 600px)", width := some "2000" }, { width := some "750" }]

/-- The first loop of `createOptimizedPicture`
(src/scripts/aem-assets.js:166-173): one `<source media? type=...>` per
breakpoint whose `srcset` snapshots the shared mutable URL right after
`appendQueryParams(url, {width, format})`.  The `format` pair is passed but
dropped inside `appendQueryParams` (its key is not allow-listed).  Returns
the emitted children together with the final state of the shared URL, which
the second loop keeps mutating. -/
def typeSources (typeAttr fmt : String) : List Breakpoint → Url → List PItem × Url
  | [], url => ([], url)
  | br :: rest, url =>
    let u := (appendQueryParams url [("width", jsOptString br.width), ("format", fmt)]).1
    let (items, u2) := typeSources typeAttr fmt rest u
    (PItem.source br.media (some typeAttr) u :: items, u2)

/-- The second (`// fallback`) loop of `createOptimizedPicture`
(src/scripts/aem-assets.js:176-191): an untyped `<source>` for every
breakpoint but the last, and for the last breakpoint the terminal `<img>`
with `loading=eager?eager:lazy`, the alt text, and the final URL snapshot. -/
def fallbackItems (alt : String) (eager : Bool) (ext : String) :
    List Breakpoint → Url → List PItem × Url
  | [], url => ([], url)
  | [br], url =>
    let u := (appendQueryParams url [("width", jsOptString br.width), ("format", ext)]).1
    ([PItem.img (if eager then "eager" else "lazy") alt u], u)
  | br :: br2 :: rest, url =>
    let u := (appendQueryParams url [("width", jsOptString br.width), ("format", ext)]).1
    let (items, u2) := fallbackItems alt eager ext (br2 :: rest) u
    (PItem.source br.media none u :: items, u2)

/-- `createOptimizedPicture(src, alt = '', eager = false, breakpoints =
default)` — the positional variant (src/scripts/aem-assets.js:159-194).
`new URL(src)` is taken as the already-parsed structured URL.  The source
type is hard-coded `image/webp` and the (dropped) format value is
`webply`. -/
def createOptimizedPicture (src : Url) (alt : String := "") (eager : Bool := false)
    (breakpoints : List Breakpoint := defaultBreakpoints) : PictureEl :=
  let ext := extAfterLastDot src.pathname
  let (webp, url1) := typeSources "image/webp" "webply" breakpoints src
  let (fallback, _) := fallbackItems alt eager ext breakpoints url1
  { children := webp ++ fallback }

/-- The options record of the record variant of `createOptimizedPicture`
(src/unnamed/part_000:162-171), with its default values. -/
structure CopOptions where
  src : Url
  alt : String := ""
  eager : Bool := false
  breakpoints : List Breakpoint := defaultBreakpoints
  imageFormat : String := "webp"
  deriving DecidableEq, Repr

/-- `createOptimizedPicture({src, alt, eager, breakpoints, imageFormat})` —
the options-record variant (src/unnamed/part_000:162-206).  The source type
is `image/` plus `imageFormat` and the (dropped) format value is
`imageFormat`. -/
def createOptimizedPictureRec (o : CopOptions) : PictureEl :=
  let ext := extAfterLastDot o.src.pathname
  let (webp, url1) := typeSources ("image/" ++ o.imageFormat) o.imageFormat o.breakpoints o.src
  let (fallback, _) := fallbackItems o.alt o.eager ext o.breakpoints url1
  { children := webp ++ fallback }

/-- Example source URL with no query, used by witnesses and
counterexamples. -/
def exUrl : Url := { origin := "https://example.com", pathname := "/media.jpg", query := [] }

example :
    (createOptimizedPicture exUrl "" false defaultBreakpoints).children =
      [PItem.source (some "(min-width: 600px)") (some "image/webp")
          { origin := "https://example.com", pathname := "/media.jpg",
            query := [("width", "2000")] },
        PItem.source none (some "image/webp")
          { origin := "https://example.com", pathname := "/media.jpg",
            query := [("width", "750")] },
        PItem.source (some "(min-width: 600px)") none
          { origin := "https://example.com", pathname := "/media.jpg",
            query := [("width", "2000")] },
        PItem.img "lazy" ""
          { origin := "https://example.com", pathname := "/media.jpg",
            query := [("width", "750")] }] := by decide

/-! ### Claim C5: the two calling-convention variants -/

theorem applyParams_width_format (q : Query) (v f : String) :
    applyParams q [("width", v), ("format", f)] = setParam q "width" v := by
  have h1 : ("width" : String) ∈ allowedParams := by decide
  have h2 : ("format" : String) ∉ allowedParams := by decide
  simp [applyParams, h1, h2]

/-- The `format` value passed to `appendQueryParams` never reaches the URL
(its key is not allow-listed), so the emitted sources do not depend on it. -/
theorem typeSources_format_irrelevant (t f g : String) :
    ∀ (bps : List Breakpoint) (u : Url),
      typeSources t f bps u = typeSources t g bps u := by
  intro bps
  induction bps with
  | nil =>
    intro u
    rfl
  | cons br rest ih =>
    intro u
    have hu : (appendQueryParams u [("width", jsOptString br.width), ("format", f)]).1 =
        (appendQueryParams u [("width", jsOptString br.width), ("format", g)]).1 := by
      simp [appendQueryParams, applyParams_width_format]
    simp only [typeSources]
    rw [hu, ih]

/-- Likewise for the fallback loop: the original-extension `format` value is
dropped, so the fallback children do not depend on the extension. -/
theorem fallbackItems_ext_irrelevant (alt : String) (eager : Bool) (e1 e2 : String) :
    ∀ (bps : List Breakpoint) (u : Url),
      fallbackItems alt eager e1 bps u = fallbackItems alt eager e2 bps u := by
  intro bps
  induction bps with
  | nil =>
    intro u
    rfl
  | cons br rest ih =>
    intro u
    have hu : (appendQueryParams u [("width", jsOptString br.width), ("format", e1)]).1 =
        (appendQueryParams u [("width", jsOptString br.width), ("format", e2)]).1 := by
      simp [appendQueryParams, applyParams_width_format]
    cases rest with
    | nil =>
      simp only [fallbackItems]
      rw [hu]
    | cons br2 rest2 =>
      simp only [fallbackItems]
      rw [hu, ih]

/-- C5 (amended): with the record variant left at its default
`imageFormat = 'webp'`, the two `createOptimizedPicture` variants produce
identical picture subtrees for every corresponding input — the positional
variant hard-codes type `image/webp` with (dropped) format value `webply`,
the record variant uses `image/webp` with (dropped) format value `webp`,
and since `format` is not allow-listed the emitted URLs agree. -/
theorem createOptimizedPicture_variants_agree (src : Url) (alt : String) (eager : Bool)
    (bps : List Breakpoint) :
    createOptimizedPicture src alt eager bps =
      createOptimizedPictureRec
        { src := src, alt := alt, eager := eager, breakpoints := bps } := by
  unfold createOptimizedPicture createOptimizedPictureRec
  dsimp only
  rw [show ("image/" ++ "webp" : String) = "image/webp" from rfl]
  rw [typeSources_format_irrelevant "image/webp" "webply" "webp" bps src]

/-! ### The decoration of one external node -/

/-- The copy-query-params block of `decorateExternalImages`
(src/scripts/aem-assets.js:508-523, src/unnamed/part_000:381-396): for every
`source`/`img` child of the synthesized picture, re-parse its URL attribute
and append the original link query through `appendQueryParams` (which again
filters by the allow-list). -/
def copyQueryParams (origQuery : Query) (pic : PictureEl) : PictureEl :=
  { pic with
    children := pic.children.map fun item =>
      match item with
      | .source m t u => .source m t (appendQueryParams u origQuery).1
      | .img l a u => .img l a (appendQueryParams u origQuery).1 }

/-- The `decorateExternalImages` forEach body in the positional variant for a
link whose trimmed text equals the external-image marker and that carries no
smart-crop marking: `isExternalImage` classifies it external with handler
`createOptimizedPicture` (src/scripts/aem-assets.js:89-91), the handler is
called as `handler(extImageSrc, null, useSmartcrop)`
(src/scripts/aem-assets.js:495) — the explicit `null` alt overrides the
default and `setAttribute` stringifies it to `"null"`, and `useSmartcrop`
lands in the `eager` parameter — and then the original query params are
copied over the new subtree (lines 508-523). -/
def decorateMarkerLinkPositional (href : Url) (useSmartcrop : Bool) : PictureEl :=
  copyQueryParams href.query (createOptimizedPicture href "null" useSmartcrop defaultBreakpoints)

/-- The same forEach body in the options-record variant
(src/unnamed/part_000:376-397) for a marker link without smart-crop marking:
`isExternalImage` yields `imageFormat = null` (src/unnamed/part_000:95-97),
so the picture is built as `createOptimizedPicture({src, imageFormat:
'webp'})` with the default alt `''`, then the original query params are
copied over the new subtree. -/
def decorateMarkerLinkRecord (href : Url) : PictureEl :=
  copyQueryParams href.query (createOptimizedPictureRec { src := href, imageFormat := "webp" })

/-- C5 (counterexample): the two variants are not behaviorally identical.
For the same marker link (href `https://example.com/media.jpg`, no
smart-crop marking) the replacement pictures differ: the positional variant
passes the JS `null` alt through `setAttribute` (yielding `alt="null"`)
while the record variant leaves the default `alt=""`. -/
theorem variants_decorate_differ :
    decorateMarkerLinkPositional exUrl false ≠ decorateMarkerLinkRecord exUrl ∧
    (decorateMarkerLinkPositional exUrl false).children.getLast? =
      some (PItem.img "lazy" "null"
        { origin := "https://example.com", pathname := "/media.jpg",
          query := [("width", "750")] }) ∧
    (decorateMarkerLinkRecord exUrl).children.getLast? =
      some (PItem.img "lazy" ""
        { origin := "https://example.com", pathname := "/media.jpg",
          query := [("width", "750")] }) := by decide

/-! ### Claim C4: the shape of a synthesized picture -/

theorem typeSources_cons (t f : String) (br : Breakpoint) (rest : List Breakpoint) (u : Url) :
    typeSources t f (br :: rest) u =
      (PItem.source br.media (some t)
          (appendQueryParams u [("width", jsOptString br.width), ("format", f)]).1 ::
        (typeSources t f rest
          (appendQueryParams u [("width", jsOptString br.width), ("format", f)]).1).1,
       (typeSources t f rest
          (appendQueryParams u [("width", jsOptString br.width), ("format", f)]).1).2) := rfl

theorem fallbackItems_one (alt : String) (eager : Bool) (ext : String) (br : Breakpoint)
    (u : Url) :
    fallbackItems alt eager ext [br] u =
      ([PItem.img (if eager then "eager" else "lazy") alt
          (appendQueryParams u [("width", jsOptString br.width), ("format", ext)]).1],
       (appendQueryParams u [("width", jsOptString br.width), ("format", ext)]).1) := rfl

theorem fallbackItems_cons2 (alt : String) (eager : Bool) (ext : String)
    (br br2 : Breakpoint) (rest : List Breakpoint) (u : Url) :
    fallbackItems alt eager ext (br :: br2 :: rest) u =
      (PItem.source br.media none
          (appendQueryParams u [("width", jsOptString br.width), ("format", ext)]).1 ::
        (fallbackItems alt eager ext (br2 :: rest)
          (appendQueryParams u [("width", jsOptString br.width), ("format", ext)]).1).1,
       (fallbackItems alt eager ext (br2 :: rest)
          (appendQueryParams u [("width", jsOptString br.width), ("format", ext)]).1).2) := rfl

theorem createOptimizedPicture_children (src : Url) (alt : String) (eager : Bool)
    (bps : List Breakpoint) :
    (createOptimizedPicture src alt eager bps).children =
      (typeSources "image/webp" "webply" bps src).1 ++
      (fallbackItems alt eager (extAfterLastDot src.pathname) bps
        (typeSources "image/webp" "webply" bps src).2).1 := rfl

theorem typeSources_counts (t f : String) :
    ∀ (bps : List Breakpoint) (u : Url),
      ((typeSources t f bps u).1).countP isNegotiatedSource = bps.length ∧
      ((typeSources t f bps u).1).countP isPlainSource = 0 ∧
      ((typeSources t f bps u).1).countP isImgItem = 0 := by
  intro bps
  induction bps with
  | nil =>
    intro u
    exact ⟨rfl, rfl, rfl⟩
  | cons br rest ih =>
    intro u
    rw [typeSources_cons]
    obtain ⟨h1, h2, h3⟩ :=
      ih (appendQueryParams u [("width", jsOptString br.width), ("format", f)]).1
    refine ⟨?_, ?_, ?_⟩ <;>
      simp [List.countP_cons, isNegotiatedSource, isPlainSource, isImgItem, h1, h2, h3]

theorem typeSources_length (t f : String) :
    ∀ (bps : List Breakpoint) (u : Url), ((typeSources t f bps u).1).length = bps.length := by
  intro bps
  induction bps with
  | nil =>
    intro u
    rfl
  | cons br rest ih =>
    intro u
    rw [typeSources_cons]
    simp [ih]

theorem fallbackItems_counts (alt : String) (eager : Bool) (ext : String) :
    ∀ (bps : List Breakpoint) (u : Url), bps ≠ [] →
      ((fallbackItems alt eager ext bps u).1).countP isPlainSource = bps.length - 1 ∧
      ((fallbackItems alt eager ext bps u).1).countP isImgItem = 1 ∧
      ((fallbackItems alt eager ext bps u).1).countP isNegotiatedSource = 0 := by
  intro bps
  induction bps with
  | nil =>
    intro u h
    exact absurd rfl h
  | cons br rest ih =>
    intro u _
    cases rest with
    | nil =>
      rw [fallbackItems_one]
      refine ⟨?_, ?_, ?_⟩ <;>
        simp [List.countP_cons, isNegotiatedSource, isPlainSource, isImgItem]
    | cons br2 rest2 =>
      rw [fallbackItems_cons2]
      obtain ⟨h1, h2, h3⟩ :=
        ih (appendQueryParams u [("width", jsOptString br.width), ("format", ext)]).1
          (by simp)
      refine ⟨?_, ?_, ?_⟩ <;>
        simp [List.countP_cons, isNegotiatedSource, isPlainSource, isImgItem, h1, h2, h3]

theorem fallbackItems_ne_nil (alt : String) (eager : Bool) (ext : String) :
    ∀ (bps : List Breakpoint) (u : Url), bps ≠ [] →
      (fallbackItems alt eager ext bps u).1 ≠ [] := by
  intro bps
  cases bps with
  | nil =>
    intro u h
    exact absurd rfl h
  | cons br rest =>
    intro u _
    cases rest with
    | nil =>
      rw [fallbackItems_one]
      simp
    | cons br2 rest2 =>
      rw [fallbackItems_cons2]
      simp

theorem fallbackItems_last (alt : String) (eager : Bool) (ext : String) :
    ∀ (bps : List Breakpoint) (u : Url) (h : bps ≠ []) (it : PItem),
      ((fallbackItems alt eager ext bps u).1).getLast? = some it →
        it = PItem.img (if eager then "eager" else "lazy") alt it.urlOf ∧
        ("width", jsOptString ((bps.getLast h).width)) ∈ it.urlOf.query := by
  intro bps
  induction bps with
  | nil =>
    intro u h
    exact absurd rfl h
  | cons br rest ih =>
    intro u h it hlast
    cases rest with
    | nil =>
      rw [fallbackItems_one] at hlast
      simp only [List.getLast?_singleton, Option.some.injEq] at hlast
      subst hlast
      constructor
      · rfl
      · show ("width", jsOptString ((([br] : List Breakpoint).getLast h).width)) ∈
          (applyParams u.query [("width", jsOptString br.width), ("format", ext)])
        rw [applyParams_width_format]
        exact mem_setParam_self u.query "width" (jsOptString br.width)
    | cons br2 rest2 =>
      rw [fallbackItems_cons2] at hlast
      have hne := fallbackItems_ne_nil alt eager ext (br2 :: rest2)
        (appendQueryParams u [("width", jsOptString br.width), ("format", ext)]).1 (by simp)
      rw [show (PItem.source br.media none
            (appendQueryParams u [("width", jsOptString br.width), ("format", ext)]).1 ::
          (fallbackItems alt eager ext (br2 :: rest2)
            (appendQueryParams u [("width", jsOptString br.width), ("format", ext)]).1).1) =
          [PItem.source br.media none
            (appendQueryParams u [("width", jsOptString br.width), ("format", ext)]).1] ++
          (fallbackItems alt eager ext (br2 :: rest2)
            (appendQueryParams u [("width", jsOptString br.width), ("format", ext)]).1).1
          from rfl, List.getLast?_append_of_ne_nil _ hne] at hlast
      have hgl : ((br :: br2 :: rest2 : List Breakpoint).getLast h) =
          ((br2 :: rest2 : List Breakpoint).getLast (by simp)) := rfl
      rw [hgl]
      exact ih (appendQueryParams u [("width", jsOptString br.width), ("format", ext)]).1
        (by simp) it hlast

/-- C4: for every nonempty breakpoint sequence, the uniform-format synthesis
returns a picture with exactly `N` type-negotiated sources, exactly `N - 1`
untyped same-format fallback sources, and exactly one terminal `<img>`; the
`<img>` is the last child, uses `eager`/`lazy` loading and the given alt, and
its URL carries the width of the last breakpoint. -/
theorem createOptimizedPicture_shape (src : Url) (alt : String) (eager : Bool)
    (bps : List Breakpoint) (h : bps ≠ []) :
    ((createOptimizedPicture src alt eager bps).children.countP isNegotiatedSource
        = bps.length) ∧
    ((createOptimizedPicture src alt eager bps).children.countP isPlainSource
        = bps.length - 1) ∧
    ((createOptimizedPicture src alt eager bps).children.countP isImgItem = 1) ∧
    ((createOptimizedPicture src alt eager bps).children.getLast?).isSome = true ∧
    (∀ it, (createOptimizedPicture src alt eager bps).children.getLast? = some it →
      it = PItem.img (if eager then "eager" else "lazy") alt it.urlOf ∧
      ("width", jsOptString ((bps.getLast h).width)) ∈ it.urlOf.query) := by
  obtain ⟨t1, t2, t3⟩ := typeSources_counts "image/webp" "webply" bps src
  obtain ⟨f1, f2, f3⟩ := fallbackItems_counts alt eager (extAfterLastDot src.pathname) bps
    (typeSources "image/webp" "webply" bps src).2 h
  have hne := fallbackItems_ne_nil alt eager (extAfterLastDot src.pathname) bps
    (typeSources "image/webp" "webply" bps src).2 h
  rw [createOptimizedPicture_children]
  refine ⟨?_, ?_, ?_, ?_, ?_⟩
  · rw [List.countP_append, t1, f3]
    omega
  · rw [List.countP_append, t2, f1]
    omega
  · rw [List.countP_append, t3, f2]
  · rw [List.getLast?_append_of_ne_nil _ hne]
    cases hcase : ((fallbackItems alt eager (extAfterLastDot src.pathname) bps
        (typeSources "image/webp" "webply" bps src).2).1).getLast? with
    | none => exact absurd (List.getLast?_eq_none_iff.mp hcase) hne
    | some it => rfl
  · intro it hlast
    rw [List.getLast?_append_of_ne_nil _ hne] at hlast
    exact fallbackItems_last alt eager (extAfterLastDot src.pathname) bps
      (typeSources "image/webp" "webply" bps src).2 h it hlast

/-- The fallback img URL of the witness picture. -/
def exUrlW750 : Url :=
  { origin := "https://example.com", pathname := "/media.jpg", query := [("width", "750")] }

/-- Witness for C4 at the default breakpoints (N = 2): 2 negotiated sources,
1 fallback source, 1 img, and the img (last child) carries width 750 from
the last breakpoint. -/
theorem createOptimizedPicture_shape_witness :
    (createOptimizedPicture exUrl "" false defaultBreakpoints).children.countP
        isNegotiatedSource = 2 ∧
    (createOptimizedPicture exUrl "" false defaultBreakpoints).children.countP
        isPlainSource = 1 ∧
    (createOptimizedPicture exUrl "" false defaultBreakpoints).children.countP
        isImgItem = 1 ∧
    ("width", "750") ∈ (PItem.img "lazy" "" exUrlW750).urlOf.query :=
  ⟨(createOptimizedPicture_shape exUrl "" false defaultBreakpoints (by decide)).1,
   (createOptimizedPicture_shape exUrl "" false defaultBreakpoints (by decide)).2.1,
   (createOptimizedPicture_shape exUrl "" false defaultBreakpoints (by decide)).2.2.1,
   ((createOptimizedPicture_shape exUrl "" false defaultBreakpoints (by decide)).2.2.2.2
      (PItem.img "lazy" "" exUrlW750) (by decide)).2⟩

/-! ### Claim C1: what the negotiated sources actually carry -/

theorem not_mem_qkeys_iff {q : Query} {a : String} :
    a ∉ qkeys q ↔ ∀ b, (a, b) ∉ q := by
  constructor
  · intro h b hm
    exact h (@fst_mem_qkeys q (a, b) hm)
  · intro h hmem
    obtain ⟨kv, hkv, he⟩ := List.mem_map.mp hmem
    obtain ⟨x, y⟩ := kv
    have hx : x = a := he
    subst hx
    exact h y hkv

theorem typeSources_get (t f : String) :
    ∀ (bps : List Breakpoint) (u : Url), "format" ∉ qkeys u.query →
      ∀ (i : Nat) (hi : i < bps.length),
        (((typeSources t f bps u).1).get? i).isSome = true ∧
        ∀ it, ((typeSources t f bps u).1).get? i = some it →
          it = PItem.source ((bps.get ⟨i, hi⟩).media) (some t) it.urlOf ∧
          ("width", jsOptString ((bps.get ⟨i, hi⟩).width)) ∈ it.urlOf.query ∧
          "format" ∉ qkeys it.urlOf.query := by
  intro bps
  induction bps with
  | nil =>
    intro u hfmt i hi
    exact absurd hi (by simp)
  | cons br rest ih =>
    intro u hfmt i hi
    rw [typeSources_cons]
    have hq : (appendQueryParams u [("width", jsOptString br.width), ("format", f)]).1.query =
        setParam u.query "width" (jsOptString br.width) := by
      show applyParams u.query [("width", jsOptString br.width), ("format", f)] = _
      exact applyParams_width_format u.query (jsOptString br.width) f
    have hfmt2 : "format" ∉ qkeys
        (appendQueryParams u [("width", jsOptString br.width), ("format", f)]).1.query := by
      rw [hq, not_mem_qkeys_iff]
      intro b
      rw [mem_setParam_of_ne (by decide)]
      exact not_mem_qkeys_iff.mp hfmt b
    cases i with
    | zero =>
      constructor
      · rfl
      · intro it hit
        simp only [List.get?_cons_zero, Option.some.injEq] at hit
        subst hit
        refine ⟨rfl, ?_, ?_⟩
        · show ("width", jsOptString (((br :: rest : List Breakpoint).get ⟨0, hi⟩).width)) ∈
            (appendQueryParams u [("width", jsOptString br.width), ("format", f)]).1.query
          rw [hq]
          exact mem_setParam_self u.query "width" (jsOptString br.width)
        · exact hfmt2
    | succ j =>
      have hj : j < rest.length := by
        simp at hi
        omega
      obtain ⟨hsome, hprop⟩ := ih
        (appendQueryParams u [("width", jsOptString br.width), ("format", f)]).1 hfmt2 j hj
      constructor
      · simpa [List.get?_cons_succ] using hsome
      · intro it hit
        rw [List.get?_cons_succ] at hit
        have hres := hprop it hit
        rw [show ((br :: rest : List Breakpoint).get ⟨j + 1, hi⟩) = rest.get ⟨j, hj⟩ from rfl]
        exact hres

/-- C1 (amended): for every breakpoint sequence and source URL (whose query
does not already carry a `format` key), `createOptimizedPicture` emits, in
breakpoint order, one type-negotiated `<source type="image/webp">` per
breakpoint, whose `srcset` URL carries the breakpoint `width` query
parameter but carries no `format` query parameter: the `format` pair passed
to `appendQueryParams` is dropped because `format` is not on the
allow-list. -/
theorem createOptimizedPicture_sources_width_no_format (src : Url) (alt : String)
    (eager : Bool) (bps : List Breakpoint) (hfmt : "format" ∉ qkeys src.query)
    (i : Nat) (hi : i < bps.length) :
    (((createOptimizedPicture src alt eager bps).children.get? i).isSome = true) ∧
    ∀ it, (createOptimizedPicture src alt eager bps).children.get? i = some it →
      it = PItem.source ((bps.get ⟨i, hi⟩).media) (some "image/webp") it.urlOf ∧
      ("width", jsOptString ((bps.get ⟨i, hi⟩).width)) ∈ it.urlOf.query ∧
      "format" ∉ qkeys it.urlOf.query := by
  have hlen := typeSources_length "image/webp" "webply" bps src
  obtain ⟨hsome, hprop⟩ := typeSources_get "image/webp" "webply" bps src hfmt i hi
  rw [createOptimizedPicture_children]
  rw [List.get?_append (by rw [hlen]; exact hi)]
  exact ⟨hsome, hprop⟩

/-- C1 (counterexample to the claim as stated): at the concrete source URL
`https://example.com/media.jpg` with the default breakpoints, the first
emitted `<source>` has `srcset` query `width=2000` and no `format` key at
all — the synthesized srcset does not carry a `format` query parameter. -/
theorem createOptimizedPicture_format_param_dropped :
    (createOptimizedPicture exUrl "" false defaultBreakpoints).children.get? 0 =
      some (PItem.source (some "(min-width: 600px)") (some "image/webp")
        { origin := "https://example.com", pathname := "/media.jpg",
          query := [("width", "2000")] }) ∧
    "format" ∉ qkeys [("width", "2000")] := by decide

/-- Witness for the amended C1 at a concrete input: the first source of the
default synthesis exists, carries `width=2000`, and carries no `format`
key. -/
theorem createOptimizedPicture_sources_width_no_format_witness :
    (((createOptimizedPicture exUrl "" false defaultBreakpoints).children.get? 0).isSome
        = true) ∧
    ("width", "2000") ∈ (PItem.source (some "(min-width: 600px)") (some "image/webp")
        { origin := "https://example.com", pathname := "/media.jpg",
          query := [("width", "2000")] }).urlOf.query ∧
    "format" ∉ qkeys (PItem.source (some "(min-width: 600px)") (some "image/webp")
        { origin := "https://example.com", pathname := "/media.jpg",
          query := [("width", "2000")] }).urlOf.query :=
  ⟨(createOptimizedPicture_sources_width_no_format exUrl "" false defaultBreakpoints
      (by decide) 0 (by decide)).1,
   ((createOptimizedPicture_sources_width_no_format exUrl "" false defaultBreakpoints
      (by decide) 0 (by decide)).2 _ (by decide)).2.1,
   ((createOptimizedPicture_sources_width_no_format exUrl "" false defaultBreakpoints
      (by decide) 0 (by decide)).2 _ (by decide)).2.2⟩

/-! ### Claim C3: query-parameter propagation through decoration -/

theorem typeSources_preserves (t f : String) {a b : String} (ha : a ≠ "width") :
    ∀ (bps : List Breakpoint) (u : Url), (a, b) ∈ u.query →
      ((a, b) ∈ ((typeSources t f bps u).2).query ∧
        ∀ it ∈ (typeSources t f bps u).1, (a, b) ∈ it.urlOf.query) := by
  intro bps
  induction bps with
  | nil =>
    intro u hm
    exact ⟨hm, fun it hit => absurd hit (List.not_mem_nil _)⟩
  | cons br rest ih =>
    intro u hm
    have hm1 : (a, b) ∈
        (appendQueryParams u [("width", jsOptString br.width), ("format", f)]).1.query := by
      show (a, b) ∈ applyParams u.query [("width", jsOptString br.width), ("format", f)]
      rw [applyParams_width_format]
      exact (mem_setParam_of_ne ha).mpr hm
    obtain ⟨hthread, hitems⟩ :=
      ih (appendQueryParams u [("width", jsOptString br.width), ("format", f)]).1 hm1
    rw [typeSources_cons]
    refine ⟨hthread, ?_⟩
    intro it hit
    rcases List.mem_cons.mp hit with hc | hrest
    · subst hc
      exact hm1
    · exact hitems it hrest

theorem fallbackItems_preserves (alt : String) (eager : Bool) (ext : String)
    {a b : String} (ha : a ≠ "width") :
    ∀ (bps : List Breakpoint) (u : Url), (a, b) ∈ u.query →
      ∀ it ∈ (fallbackItems alt eager ext bps u).1, (a, b) ∈ it.urlOf.query := by
  intro bps
  induction bps with
  | nil =>
    intro u hm it hit
    exact absurd hit (List.not_mem_nil _)
  | cons br rest ih =>
    intro u hm it hit
    have hm1 : (a, b) ∈
        (appendQueryParams u [("width", jsOptString br.width), ("format", ext)]).1.query := by
      show (a, b) ∈ applyParams u.query [("width", jsOptString br.width), ("format", ext)]
      rw [applyParams_width_format]
      exact (mem_setParam_of_ne ha).mpr hm
    cases rest with
    | nil =>
      rw [fallbackItems_one] at hit
      simp only [List.mem_singleton] at hit
      subst hit
      exact hm1
    | cons br2 rest2 =>
      rw [fallbackItems_cons2] at hit
      rcases List.mem_cons.mp hit with hc | hrest
      · subst hc
        exact hm1
      · exact ih (appendQueryParams u [("width", jsOptString br.width), ("format", ext)]).1
          hm1 it hrest

theorem createOptimizedPicture_preserves (src : Url) (alt : String) (eager : Bool)
    (bps : List Breakpoint) {a b : String} (ha : a ≠ "width") (hm : (a, b) ∈ src.query) :
    ∀ it ∈ (createOptimizedPicture src alt eager bps).children, (a, b) ∈ it.urlOf.query := by
  intro it hit
  rw [createOptimizedPicture_children] at hit
  rcases List.mem_append.mp hit with h1 | h2
  · exact (typeSources_preserves "image/webp" "webply" ha bps src hm).2 it h1
  · exact fallbackItems_preserves alt eager (extAfterLastDot src.pathname) ha bps
      (typeSources "image/webp" "webply" bps src).2
      ((typeSources_preserves "image/webp" "webply" ha bps src hm).1) it h2

/-- The non-smart-crop decoration path: every pair of the original link
query (with pairwise-distinct keys) ends up on every child URL — allow-listed
keys are re-set by the copy loop, all other keys survive synthesis untouched
(synthesis only sets `width`, and `format` is dropped). -/
theorem decoratePlain_propagation (href : Url) (alt : String) (eager : Bool)
    (hnd : (qkeys href.query).Nodup) :
    ∀ it ∈ (copyQueryParams href.query
        (createOptimizedPicture href alt eager defaultBreakpoints)).children,
      ∀ kv ∈ href.query, kv ∈ it.urlOf.query := by
  intro it hit kv hkv
  simp only [copyQueryParams, List.mem_map] at hit
  obtain ⟨it0, hit0, heq⟩ := hit
  subst heq
  obtain ⟨a, b⟩ := kv
  by_cases hal : a ∈ allowedParams
  · cases it0 with
    | source m t u =>
      show (a, b) ∈ applyParams u.query href.query
      exact mem_applyParams_of_mem hnd hkv hal
    | img l al u =>
      show (a, b) ∈ applyParams u.query href.query
      exact mem_applyParams_of_mem hnd hkv hal
  · have ha : a ≠ "width" := by
      intro he
      rw [he] at hal
      exact hal (by decide)
    have hpre := createOptimizedPicture_preserves href alt eager defaultBreakpoints ha hkv
      it0 hit0
    have huntouched : ∀ kv' ∈ href.query, kv'.1 ∈ allowedParams → kv'.1 ≠ a := by
      intro kv' _ hal' he
      rw [he] at hal'
      exact hal hal'
    cases it0 with
    | source m t u =>
      show (a, b) ∈ applyParams u.query href.query
      exact (mem_applyParams_untouched huntouched).mpr hpre
    | img l al u =>
      show (a, b) ∈ applyParams u.query href.query
      exact (mem_applyParams_untouched huntouched).mpr hpre

/-! #### The smart-crop synthesis path (options-record variant) -/

/-- One entry of the `window.hlx.aemassets.smartCrops` configuration. -/
structure SmartCropDims where
  minWidth : Nat
  maxWidth : Nat
  deriving DecidableEq, Repr

/-- The breakpoints derived from the smart-crop configuration when none are
passed (src/unnamed/part_000:228-234): a media range and the crop name per
config entry. -/
def smartcropBreakpointsOf (smartCrops : List (String × SmartCropDims)) : List Breakpoint :=
  smartCrops.map (fun nc =>
    { media := some ("(min-width: " ++ toString nc.2.minWidth ++ "px) and (max-width: " ++
        toString nc.2.maxWidth ++ "px)"),
      smartcrop := some nc.1 })

theorem applyParams_smartcrop_format (q : Query) (v f : String) :
    applyParams q [("smartcrop", v), ("format", f)] = setParam q "smartcrop" v := by
  have h1 : ("smartcrop" : String) ∈ allowedParams := by decide
  have h2 : ("format" : String) ∉ allowedParams := by decide
  simp [applyParams, h1, h2]

/-- The first loop of `createOptimizedPictureWithSmartcrop`
(src/unnamed/part_000:242-249): one `<source media? type=...>` per
breakpoint with the `{smartcrop, format}` params (the `format` pair is
dropped by the allow-list). -/
def scTypeSources (typeAttr fmt : String) : List Breakpoint → Url → List PItem × Url
  | [], url => ([], url)
  | br :: rest, url =>
    let u := (appendQueryParams url [("smartcrop", jsOptString br.smartcrop), ("format", fmt)]).1
    let (items, u2) := scTypeSources typeAttr fmt rest u
    (PItem.source br.media (some typeAttr) u :: items, u2)

/-- The second loop of `createOptimizedPictureWithSmartcrop`
(src/unnamed/part_000:252-258): one untyped `<source>` per breakpoint with
the `{smartcrop, format: ext}` params. -/
def scPlainSources (ext : String) : List Breakpoint → Url → List PItem × Url
  | [], url => ([], url)
  | br :: rest, url =>
    let u := (appendQueryParams url [("smartcrop", jsOptString br.smartcrop), ("format", ext)]).1
    let (items, u2) := scPlainSources ext rest u
    (PItem.source br.media none u :: items, u2)

theorem scTypeSources_cons (t f : String) (br : Breakpoint) (rest : List Breakpoint)
    (u : Url) :
    scTypeSources t f (br :: rest) u =
      (PItem.source br.media (some t)
          (appendQueryParams u [("smartcrop", jsOptString br.smartcrop), ("format", f)]).1 ::
        (scTypeSources t f rest
          (appendQueryParams u [("smartcrop", jsOptString br.smartcrop), ("format", f)]).1).1,
       (scTypeSources t f rest
          (appendQueryParams u [("smartcrop", jsOptString br.smartcrop), ("format", f)]).1).2) :=
  rfl

theorem scPlainSources_cons (ext : String) (br : Breakpoint) (rest : List Breakpoint)
    (u : Url) :
    scPlainSources ext (br :: rest) u =
      (PItem.source br.media none
          (appendQueryParams u [("smartcrop", jsOptString br.smartcrop), ("format", ext)]).1 ::
        (scPlainSources ext rest
          (appendQueryParams u [("smartcrop", jsOptString br.smartcrop), ("format", ext)]).1).1,
       (scPlainSources ext rest
          (appendQueryParams u [("smartcrop", jsOptString br.smartcrop), ("format", ext)]).1).2) :=
  rfl

/-- `createOptimizedPictureWithSmartcrop({src, alt, eager, breakpoints,
imageFormat})` (src/unnamed/part_000:218-270), with the global
`window.hlx.aemassets.smartCrops` passed explicitly: breakpoints default to
the config-derived ones when empty; the two source loops share the mutable
URL; the fallback `<img>` gets the final URL with the `smartcrop` param
deleted; the picture gets the `smartcrop` class. -/
def createOptimizedPictureWithSmartcropRec (smartCrops : List (String × SmartCropDims))
    (src : Url) (alt : String := "") (eager : Bool := false)
    (breakpoints : List Breakpoint := []) (imageFormat : String := "webp") : PictureEl :=
  let scBps := if breakpoints.isEmpty then smartcropBreakpointsOf smartCrops else breakpoints
  let (webp, url1) := scTypeSources ("image/" ++ imageFormat) imageFormat scBps src
  let (plains, url2) := scPlainSources (extAfterLastDot src.pathname) scBps url1
  let imgUrl : Url := { url2 with query := removeParam url2.query "smartcrop" }
  { children := webp ++ plains ++ [PItem.img (if eager then "eager" else "lazy") alt imgUrl],
    classes := ["smartcrop"] }

/-- The smart-crop branch of the `decorateExternalImages` forEach in the
options-record variant (src/unnamed/part_000:366-374): when the node carries
`data-smartcrop-status="loading"`, the replacement is built by
`createOptimizedPictureWithSmartcrop({src, imageFormat})`, tagged
`data-smartcrop-status="loaded"`, and the node is replaced immediately — the
copy-query-params loop is skipped on this path. -/
def decorateSmartcropNodeRecord (smartCrops : List (String × SmartCropDims))
    (href : Url) (imageFormat : String) : PictureEl :=
  let pic := createOptimizedPictureWithSmartcropRec smartCrops href "" false [] imageFormat
  { pic with smartcropStatus := some "loaded" }

theorem scTypeSources_preserves (t f : String) {a b : String} (ha : a ≠ "smartcrop") :
    ∀ (bps : List Breakpoint) (u : Url), (a, b) ∈ u.query →
      ((a, b) ∈ ((scTypeSources t f bps u).2).query ∧
        ∀ it ∈ (scTypeSources t f bps u).1, (a, b) ∈ it.urlOf.query) := by
  intro bps
  induction bps with
  | nil =>
    intro u hm
    exact ⟨hm, fun it hit => absurd hit (List.not_mem_nil _)⟩
  | cons br rest ih =>
    intro u hm
    have hm1 : (a, b) ∈
        (appendQueryParams u
          [("smartcrop", jsOptString br.smartcrop), ("format", f)]).1.query := by
      show (a, b) ∈ applyParams u.query [("smartcrop", jsOptString br.smartcrop), ("format", f)]
      rw [applyParams_smartcrop_format]
      exact (mem_setParam_of_ne ha).mpr hm
    obtain ⟨hthread, hitems⟩ :=
      ih (appendQueryParams u [("smartcrop", jsOptString br.smartcrop), ("format", f)]).1 hm1
    rw [scTypeSources_cons]
    refine ⟨hthread, ?_⟩
    intro it hit
    rcases List.mem_cons.mp hit with hc | hrest
    · subst hc
      exact hm1
    · exact hitems it hrest

theorem scPlainSources_preserves (ext : String) {a b : String} (ha : a ≠ "smartcrop") :
    ∀ (bps : List Breakpoint) (u : Url), (a, b) ∈ u.query →
      ((a, b) ∈ ((scPlainSources ext bps u).2).query ∧
        ∀ it ∈ (scPlainSources ext bps u).1, (a, b) ∈ it.urlOf.query) := by
  intro bps
  induction bps with
  | nil =>
    intro u hm
    exact ⟨hm, fun it hit => absurd hit (List.not_mem_nil _)⟩
  | cons br rest ih =>
    intro u hm
    have hm1 : (a, b) ∈
        (appendQueryParams u
          [("smartcrop", jsOptString br.smartcrop), ("format", ext)]).1.query := by
      show (a, b) ∈ applyParams u.query
        [("smartcrop", jsOptString br.smartcrop), ("format", ext)]
      rw [applyParams_smartcrop_format]
      exact (mem_setParam_of_ne ha).mpr hm
    obtain ⟨hthread, hitems⟩ :=
      ih (appendQueryParams u [("smartcrop", jsOptString br.smartcrop), ("format", ext)]).1 hm1
    rw [scPlainSources_cons]
    refine ⟨hthread, ?_⟩
    intro it hit
    rcases List.mem_cons.mp hit with hc | hrest
    · subst hc
      exact hm1
    · exact hitems it hrest

theorem smartcropRec_children (smartCrops : List (String × SmartCropDims)) (src : Url)
    (alt : String) (eager : Bool) (imageFormat : String) :
    (createOptimizedPictureWithSmartcropRec smartCrops src alt eager [] imageFormat).children =
      (scTypeSources ("image/" ++ imageFormat) imageFormat
        (smartcropBreakpointsOf smartCrops) src).1 ++
      (scPlainSources (extAfterLastDot src.pathname) (smartcropBreakpointsOf smartCrops)
        (scTypeSources ("image/" ++ imageFormat) imageFormat
          (smartcropBreakpointsOf smartCrops) src).2).1 ++
      [PItem.img (if eager then "eager" else "lazy") alt
        { (scPlainSources (extAfterLastDot src.pathname) (smartcropBreakpointsOf smartCrops)
            (scTypeSources ("image/" ++ imageFormat) imageFormat
              (smartcropBreakpointsOf smartCrops) src).2).2 with
          query := removeParam
            ((scPlainSources (extAfterLastDot src.pathname) (smartcropBreakpointsOf smartCrops)
              (scTypeSources ("image/" ++ imageFormat) imageFormat
                (smartcropBreakpointsOf smartCrops) src).2).2).query "smartcrop" }] := rfl

theorem smartcropRec_preserves (smartCrops : List (String × SmartCropDims)) (src : Url)
    (alt : String) (eager : Bool) (imageFormat : String) {a b : String}
    (ha : a ≠ "smartcrop") (hm : (a, b) ∈ src.query) :
    ∀ it ∈ (createOptimizedPictureWithSmartcropRec smartCrops src alt eager []
        imageFormat).children, (a, b) ∈ it.urlOf.query := by
  intro it hit
  rw [smartcropRec_children] at hit
  have h1 := scTypeSources_preserves ("image/" ++ imageFormat) imageFormat ha
    (smartcropBreakpointsOf smartCrops) src hm
  have h2 := scPlainSources_preserves (extAfterLastDot src.pathname) ha
    (smartcropBreakpointsOf smartCrops) _ h1.1
  rcases List.mem_append.mp hit with h12 | h3
  · rcases List.mem_append.mp h12 with hw | hp
    · exact h1.2 it hw
    · exact h2.2 it hp
  · simp only [List.mem_singleton] at h3
    subst h3
    show (a, b) ∈ removeParam _ "smartcrop"
    exact mem_removeParam.mpr ⟨h2.1, ha⟩

/-- C3 (amended): for a marker link decorated through the plain (non
smart-crop) path — in either variant — every query pair of the original
link URL (with pairwise-distinct keys) is present on the URL of every
`<source>`/`<img>` of the replacement picture; on the smart-crop path, where
the copy loop is skipped, the same holds for every pair whose key is not
`smartcrop` (synthesis retains them), while an original `smartcrop`
parameter is overwritten on the sources and deleted from the fallback
img. -/
theorem decorateExternalImages_propagates_query_params (href : Url)
    (hnd : (qkeys href.query).Nodup) :
    (∀ it ∈ (decorateMarkerLinkPositional href false).children, ∀ kv ∈ href.query,
        kv ∈ it.urlOf.query) ∧
    (∀ it ∈ (decorateMarkerLinkRecord href).children, ∀ kv ∈ href.query,
        kv ∈ it.urlOf.query) ∧
    (∀ (smartCrops : List (String × SmartCropDims)) (fmt : String),
      ∀ it ∈ (decorateSmartcropNodeRecord smartCrops href fmt).children,
        ∀ kv ∈ href.query, kv.1 ≠ "smartcrop" → kv ∈ it.urlOf.query) := by
  refine ⟨?_, ?_, ?_⟩
  · exact decoratePlain_propagation href "null" false hnd
  · have he : decorateMarkerLinkRecord href =
        copyQueryParams href.query
          (createOptimizedPicture href "" false defaultBreakpoints) := by
      show copyQueryParams href.query
          (createOptimizedPictureRec { src := href, imageFormat := "webp" }) = _
      rw [← createOptimizedPicture_variants_agree href "" false defaultBreakpoints]
    rw [he]
    exact decoratePlain_propagation href "" false hnd
  · intro smartCrops fmt it hit kv hkv hsc
    obtain ⟨a, b⟩ := kv
    have hchild : (decorateSmartcropNodeRecord smartCrops href fmt).children =
        (createOptimizedPictureWithSmartcropRec smartCrops href "" false [] fmt).children := rfl
    rw [hchild] at hit
    exact smartcropRec_preserves smartCrops href "" false fmt hsc hkv it hit

/-- The marker link of the propagation test, with a manually cropped URL. -/
def cropLinkUrl : Url :=
  { origin := "https://cdn", pathname := "/img.jpg", query := [("crop", "1,1,10,10")] }

/-- Witness for the amended C3: the crop parameter of
`https://cdn/img.jpg?crop=1,1,10,10` is present on the first source of the
replacement picture of the marker link. -/
theorem decorateExternalImages_propagates_query_params_witness :
    ("crop", "1,1,10,10") ∈ (PItem.source (some "(min-width: 600px)") (some "image/webp")
        { origin := "https://cdn", pathname := "/img.jpg",
          query := [("crop", "1,1,10,10"), ("width", "2000")] }).urlOf.query :=
  (decorateExternalImages_propagates_query_params cropLinkUrl (by decide)).2.1
    _ (by decide) _ (by decide)

/-- A DM OpenAPI asset URL carrying an author `smartcrop` parameter. -/
def dmSmartcropUrl : Url :=
  { origin := "https://cdn.example", pathname := "/adobe/assets/urn:aaid:aem:1234/img.jpg",
    query := [("smartcrop", "wide")] }

/-- A one-entry smart-crop configuration. -/
def exampleSmartCrops : List (String × SmartCropDims) :=
  [("square", { minWidth := 360, maxWidth := 600 })]

/-- Whether `p` is a prefix of `s` (JS `String.startsWith`, and the anchored
part of the regex below). -/
def strStartsWith (s p : String) : Bool := p.toList.isPrefixOf s.toList

/-- Whether `pat` occurs as a contiguous run inside the character list. -/
def hasSub (pat : List Char) : List Char → Bool
  | [] => pat.isEmpty
  | c :: rest => pat.isPrefixOf (c :: rest) || hasSub pat rest

/-- `isDMOpenAPIUrl(src)` (src/scripts/aem-assets.js:402-404,
src/unnamed/part_000:275-277): the test of
`^https?://(.*)/adobe/assets/urn:aaid:aem:(.*)` — the string starts with the
scheme, and the literal `/adobe/assets/urn:aaid:aem:` occurs at or after the
scheme end (URLs are assumed free of line terminators, which the regex dot
would exclude). -/
def isDMOpenAPIUrl (s : String) : Bool :=
  (strStartsWith s "https://" &&
    hasSub ("/adobe/assets/urn:aaid:aem:".toList) (s.toList.drop 8)) ||
  (!strStartsWith s "https://" && strStartsWith s "http://" &&
    hasSub ("/adobe/assets/urn:aaid:aem:".toList) (s.toList.drop 7))

/-- C3 (counterexample to the claim as stated): a marker link whose href is
the DM OpenAPI URL `https://cdn.example/adobe/assets/urn:aaid:aem:1234/img.jpg?smartcrop=wide`
is classified external and, being marked `data-smartcrop-status="loading"`
(its URL passes `isDMOpenAPIUrl`), is replaced through the smart-crop path —
in which the original pair `smartcrop=wide` reaches no child URL: the first
source carries the config crop `smartcrop=square` instead, and the fallback
img URL has the `smartcrop` parameter deleted outright. -/
theorem smartcrop_path_drops_original_smartcrop_param :
    isDMOpenAPIUrl (Url.toString dmSmartcropUrl) = true ∧
    (decorateSmartcropNodeRecord exampleSmartCrops dmSmartcropUrl "webp").children.get? 0 =
      some (PItem.source (some "(min-width: 360px) and (max-width: 600px)")
        (some "image/webp")
        { origin := "https://cdn.example",
          pathname := "/adobe/assets/urn:aaid:aem:1234/img.jpg",
          query := [("smartcrop", "square")] }) ∧
    ("smartcrop", "wide") ∉ ([("smartcrop", "square")] : Query) ∧
    (decorateSmartcropNodeRecord exampleSmartCrops dmSmartcropUrl "webp").children.getLast? =
      some (PItem.img "lazy" ""
        { origin := "https://cdn.example",
          pathname := "/adobe/assets/urn:aaid:aem:1234/img.jpg", query := [] }) ∧
    ("smartcrop", "wide") ∉ ([] : Query) := by decide

/-! ### Claims C8 and C10: the alt-encoded delivery resolver -/

/-- JS `x || '2000'` on an optional width: `undefined` and the empty string
are falsy and fall back to `'2000'`. -/
def jsOr2000 (o : Option String) : String :=
  match o with
  | none => "2000"
  | some w => if w = "" then "2000" else w

/-- The jpeg-source loop of `createOptimizedPictureForDM`
(src/scripts/aem-assets.js:280-287): one `<source media? type="image/jpeg">`
per breakpoint with the `{width}` params on the shared mutable URL. -/
def dmTypeSources : List Breakpoint → Url → List PItem × Url
  | [], url => ([], url)
  | br :: rest, url =>
    let u := (appendQueryParams url [("width", jsOptString br.width)]).1
    let (items, u2) := dmTypeSources rest u
    (PItem.source br.media (some "image/jpeg") u :: items, u2)

/-- The fallback loop of `createOptimizedPictureForDM`
(src/scripts/aem-assets.js:290-305): an untyped `<source>` per breakpoint
except the last, which yields the terminal `<img>`. -/
def dmFallbackItems (alt : String) (eager : Bool) : List Breakpoint → Url → List PItem × Url
  | [], url => ([], url)
  | [br], url =>
    let u := (appendQueryParams url [("width", jsOptString br.width)]).1
    ([PItem.img (if eager then "eager" else "lazy") alt u], u)
  | br :: br2 :: rest, url =>
    let u := (appendQueryParams url [("width", jsOptString br.width)]).1
    let (items, u2) := dmFallbackItems alt eager (br2 :: rest) u
    (PItem.source br.media none u :: items, u2)

/-- `createOptimizedPictureForDM(src, alt = '', eager = false, breakpoints =
default)` (src/scripts/aem-assets.js:269-309). -/
def createOptimizedPictureForDM (src : Url) (alt : String := "") (eager : Bool := false)
    (breakpoints : List Breakpoint := defaultBreakpoints) : PictureEl :=
  let (srcs, url1) := dmTypeSources breakpoints src
  let (fallback, _) := dmFallbackItems alt eager breakpoints url1
  { children := srcs ++ fallback }

/-- The per-source params of `createOptimizedPictureForDMOpenAPI`
(src/scripts/aem-assets.js:350-353, 365-368): `{width: br.width || '2000'}`,
then `set('smartcrop', br.smartcrop)` when smart-crop is on and the
breakpoint carries a truthy crop name. -/
def dmoSourceParams (useSmartcrop : Bool) (br : Breakpoint) : Query :=
  [("width", jsOr2000 br.width)] ++
    (if useSmartcrop then
      match br.smartcrop with
      | some sc => if sc = "" then [] else [("smartcrop", sc)]
      | none => []
    else [])

/-- The avif-source loop of `createOptimizedPictureForDMOpenAPI`
(src/scripts/aem-assets.js:345-357). -/
def dmoTypeSources (useSmartcrop : Bool) : List Breakpoint → Url → List PItem × Url
  | [], url => ([], url)
  | br :: rest, url =>
    let u := (appendQueryParams url (dmoSourceParams useSmartcrop br)).1
    let (items, u2) := dmoTypeSources useSmartcrop rest u
    (PItem.source br.media (some "image/avif") u :: items, u2)

/-- The fallback-source loop of `createOptimizedPictureForDMOpenAPI`
(src/scripts/aem-assets.js:360-373): sources for every breakpoint except the
last; the last iteration does nothing (its params are only built inside the
`i < length - 1` branch). -/
def dmoFallbackSources (useSmartcrop : Bool) : List Breakpoint → Url → List PItem × Url
  | [], url => ([], url)
  | [_], url => ([], url)
  | br :: br2 :: rest, url =>
    let u := (appendQueryParams url (dmoSourceParams useSmartcrop br)).1
    let (items, u2) := dmoFallbackSources useSmartcrop (br2 :: rest) u
    (PItem.source br.media none u :: items, u2)

/-- `createOptimizedPictureForDMOpenAPI(src, alt = '', useSmartcrop = false,
eager = false, breakpoints = default)` (src/scripts/aem-assets.js:321-397),
with the global smart-crop config passed explicitly.  Breakpoints are
replaced by config-derived ones only when smart-crop is on, a config exists,
and the passed breakpoints are empty; the terminal `<img>` takes the last
breakpoint width (or a clean URL when there are no breakpoints); a
smart-crop picture gets the `smartcrop` class and
`data-smartcrop-status="loaded"`. -/
def createOptimizedPictureForDMOpenAPI (smartCrops : Option (List (String × SmartCropDims)))
    (src : Url) (alt : String := "") (useSmartcrop : Bool := false) (eager : Bool := false)
    (breakpoints : List Breakpoint := defaultBreakpoints) : PictureEl :=
  let finalBps :=
    match smartCrops with
    | some cfg =>
      if useSmartcrop && breakpoints.isEmpty then
        cfg.map (fun nc =>
          { media := some ("(min-width: " ++ toString nc.2.minWidth ++
              "px) and (max-width: " ++ toString nc.2.maxWidth ++ "px)"),
            smartcrop := some nc.1,
            width := some (if nc.2.maxWidth = 0 then "2000" else toString nc.2.maxWidth) })
      else breakpoints
    | none => breakpoints
  let (srcs, url1) := dmoTypeSources useSmartcrop finalBps src
  let (fallback, url2) := dmoFallbackSources useSmartcrop finalBps url1
  let imgUrl :=
    match finalBps.getLast? with
    | some lastBr => (appendQueryParams url2 [("width", jsOr2000 lastBr.width)]).1
    | none => url2
  { children := srcs ++ fallback ++
      [PItem.img (if eager then "eager" else "lazy") alt imgUrl],
    classes := if useSmartcrop then ["smartcrop"] else [],
    smartcropStatus := if useSmartcrop then some "loaded" else none }

/-- The destructured alt payload `{deliveryUrl, altText}` recovered by
`JSON.parse(decodeURIComponent(alt))`; an absent `altText` is the empty
string (the synthesizer alt defaults make the two indistinguishable). -/
structure DeliveryPayload where
  deliveryUrl : Option String
  altText : String
  deriving DecidableEq, Repr

/-- The first `<img>` descendant of a synthesized picture and its alt
(`querySelector('img')`). -/
def firstImgAlt : List PItem → Option (Option String)
  | [] => none
  | PItem.img _ a _ :: _ => some (some a)
  | PItem.source _ _ _ :: rest => firstImgAlt rest

/-- A `<picture>` node seen by `decorateImagesFromAlt`: either a
pre-existing document picture — `innerImg = none` models
`querySelector('img')` returning null, `some none` an inner img without an
alt attribute, `some (some a)` an inner img with alt `a`; `key` carries the
identity/content of the node — or a picture synthesized by this pass. -/
inductive DomNode where
  | rawPicture (innerImg : Option (Option String)) (key : Nat)
  | synthPicture (p : PictureEl)
  deriving DecidableEq, Repr

/-- `pictureElement.querySelector('img')` followed by
`imgElement.getAttribute('alt')` (src/scripts/aem-assets.js:536-537).
`none` means the `querySelector` returned null, so the `getAttribute` call
throws a TypeError — and it sits before the `try`. -/
def DomNode.innerImgAlt : DomNode → Option (Option String)
  | .rawPicture i _ => i
  | .synthPicture p => firstImgAlt p.children

/-- JS string coercion inside `decodeURIComponent(alt)` when the alt
attribute is absent (`getAttribute` returned null): null stringifies to
`"null"`. -/
def jsAltString (alt : Option String) : String := alt.getD "null"

/-- The try-block body of one `decorateImagesFromAlt` iteration
(src/scripts/aem-assets.js:538-552).  `parseAlt` abstracts the external
`decodeURIComponent`/`JSON.parse` builtins together with the destructuring:
`none` means the try-block threw before any mutation (malformed URI, JSON
syntax error, or a non-object payload) and the catch does nothing.
`parseUrl` abstracts `new URL`.  A missing or empty `deliveryUrl` is falsy
and returns early; otherwise the picture is replaced by the DM-OpenAPI
(smart-crop) synthesis or the DM synthesis according to `isDMOpenAPIUrl`. -/
def resolveAltPicture (smartCrops : Option (List (String × SmartCropDims)))
    (parseAlt : String → Option DeliveryPayload) (parseUrl : String → Url)
    (node : DomNode) (alt : Option String) : DomNode :=
  match parseAlt (jsAltString alt) with
  | none => node
  | some d =>
    match d.deliveryUrl with
    | none => node
    | some u =>
      if u = "" then node
      else if isDMOpenAPIUrl u then
        DomNode.synthPicture
          (createOptimizedPictureForDMOpenAPI smartCrops (parseUrl u) d.altText true)
      else
        DomNode.synthPicture (createOptimizedPictureForDM (parseUrl u) d.altText)

/-- `decorateImagesFromAlt(ele)` (src/scripts/aem-assets.js:533-554) over
the snapshot list of `<picture>` nodes in document order.  Returns the
resulting node list and whether the call threw: on a picture without an
inner `<img>` the alt read happens before the `try`, so the TypeError
escapes the forEach — the offending node and every later node stay
untouched, while nodes already visited keep their replacements. -/
def decorateImagesFromAlt (smartCrops : Option (List (String × SmartCropDims)))
    (parseAlt : String → Option DeliveryPayload) (parseUrl : String → Url) :
    List DomNode → List DomNode × Bool
  | [] => ([], false)
  | node :: rest =>
    match node.innerImgAlt with
    | none => (node :: rest, true)
    | some alt =>
      let node2 := resolveAltPicture smartCrops parseAlt parseUrl node alt
      let (rest2, threw) := decorateImagesFromAlt smartCrops parseAlt parseUrl rest
      (node2 :: rest2, threw)

theorem resolveAltPicture_unchanged (smartCrops : Option (List (String × SmartCropDims)))
    (parseAlt : String → Option DeliveryPayload) (parseUrl : String → Url)
    (node : DomNode) (alt : Option String)
    (h : parseAlt (jsAltString alt) = none ∨
      ∃ d, parseAlt (jsAltString alt) = some d ∧ d.deliveryUrl.getD "" = "") :
    resolveAltPicture smartCrops parseAlt parseUrl node alt = node := by
  rcases h with h | ⟨d, hd, hu⟩
  · simp [resolveAltPicture, h]
  · cases hdu : d.deliveryUrl with
    | none => simp [resolveAltPicture, hd, hdu]
    | some u =>
      rw [hdu] at hu
      simp only [Option.getD_some] at hu
      subst hu
      simp [resolveAltPicture, hd, hdu]

theorem decorateImagesFromAlt_cons_some
    (smartCrops : Option (List (String × SmartCropDims)))
    (parseAlt : String → Option DeliveryPayload) (parseUrl : String → Url)
    (node : DomNode) (rest : List DomNode) {alt : Option String}
    (hia : node.innerImgAlt = some alt) :
    decorateImagesFromAlt smartCrops parseAlt parseUrl (node :: rest) =
      (resolveAltPicture smartCrops parseAlt parseUrl node alt ::
        (decorateImagesFromAlt smartCrops parseAlt parseUrl rest).1,
       (decorateImagesFromAlt smartCrops parseAlt parseUrl rest).2) := by
  simp [decorateImagesFromAlt, hia]

/-- C8: on every picture list whose members all have an inner `<img>`,
`decorateImagesFromAlt` does not throw, and every picture whose alt fails to
decode-and-parse — or parses to a payload without a (truthy) delivery URL —
is left completely unchanged at its position. -/
theorem decorateImagesFromAlt_skips_unparseable
    (smartCrops : Option (List (String × SmartCropDims)))
    (parseAlt : String → Option DeliveryPayload) (parseUrl : String → Url)
    (nodes : List DomNode)
    (hall : ∀ n ∈ nodes, (DomNode.innerImgAlt n).isSome = true) :
    ((decorateImagesFromAlt smartCrops parseAlt parseUrl nodes).2 = false) ∧
    (∀ (i : Nat) (n : DomNode) (alt : Option String),
      nodes.get? i = some n → n.innerImgAlt = some alt →
      (parseAlt (jsAltString alt) = none ∨
        ∃ d, parseAlt (jsAltString alt) = some d ∧ d.deliveryUrl.getD "" = "") →
      (decorateImagesFromAlt smartCrops parseAlt parseUrl nodes).1.get? i = some n) := by
  induction nodes with
  | nil =>
    refine ⟨rfl, ?_⟩
    intro i n alt hget
    rw [List.get?_nil] at hget
    exact absurd hget (by simp)
  | cons nd rest ih =>
    have hnd := hall nd (List.mem_cons_self _ _)
    cases hia : nd.innerImgAlt with
    | none =>
      rw [hia] at hnd
      simp at hnd
    | some a =>
      obtain ⟨ih1, ih2⟩ := ih (fun n hn => hall n (List.mem_cons_of_mem _ hn))
      rw [decorateImagesFromAlt_cons_some smartCrops parseAlt parseUrl nd rest hia]
      refine ⟨ih1, ?_⟩
      intro i n alt hget hia2 hcond
      cases i with
      | zero =>
        simp only [List.get?_cons_zero, Option.some.injEq] at hget
        subst hget
        rw [hia] at hia2
        injection hia2 with hia3
        subst hia3
        simp only [List.get?_cons_zero, Option.some.injEq]
        exact resolveAltPicture_unchanged smartCrops parseAlt parseUrl nd a hcond
      | succ j =>
        rw [List.get?_cons_succ] at hget
        rw [List.get?_cons_succ]
        exact ih2 j n alt hget hia2 hcond

/-- C10: if the node list contains a picture with no inner `<img>` (after a
prefix whose pictures all have one), the pass throws: the prefix is
processed, and the offending picture together with every later picture is
left exactly as it was. -/
theorem decorateImagesFromAlt_throws_without_img
    (smartCrops : Option (List (String × SmartCropDims)))
    (parseAlt : String → Option DeliveryPayload) (parseUrl : String → Url)
    (pre : List DomNode) (bad : DomNode) (suf : List DomNode)
    (hbad : bad.innerImgAlt = none)
    (hpre : ∀ n ∈ pre, (DomNode.innerImgAlt n).isSome = true) :
    decorateImagesFromAlt smartCrops parseAlt parseUrl (pre ++ bad :: suf) =
      ((decorateImagesFromAlt smartCrops parseAlt parseUrl pre).1 ++ bad :: suf, true) := by
  induction pre with
  | nil =>
    simp only [List.nil_append]
    show decorateImagesFromAlt smartCrops parseAlt parseUrl (bad :: suf) = _
    simp [decorateImagesFromAlt, hbad]
  | cons nd rest ih =>
    have hnd := hpre nd (List.mem_cons_self _ _)
    cases hia : nd.innerImgAlt with
    | none =>
      rw [hia] at hnd
      simp at hnd
    | some a =>
      have hih := ih (fun n hn => hpre n (List.mem_cons_of_mem _ hn))
      rw [show (nd :: rest) ++ bad :: suf = nd :: (rest ++ bad :: suf) from rfl]
      rw [decorateImagesFromAlt_cons_some smartCrops parseAlt parseUrl nd
        (rest ++ bad :: suf) hia]
      rw [decorateImagesFromAlt_cons_some smartCrops parseAlt parseUrl nd rest hia]
      rw [hih]
      rfl

/-- Witness oracle: `JSON.parse("plain text")` throws a SyntaxError, so the
abstracted parse yields `none` on every input used below. -/
def parseAltNone : String → Option DeliveryPayload := fun _ => none

/-- Witness oracle for `new URL` (never reached in the witnesses). -/
def parseUrlConst : String → Url := fun _ => exUrl

/-- A document picture whose inner img has `alt="plain text"`. -/
def plainTextPicture : DomNode := DomNode.rawPicture (some (some "plain text")) 0

/-- Witness for C8: with `alt="plain text"` (whose JSON parse fails), the
pass neither throws nor changes the picture. -/
theorem decorateImagesFromAlt_skips_unparseable_witness :
    (decorateImagesFromAlt none parseAltNone parseUrlConst [plainTextPicture]).2 = false ∧
    (decorateImagesFromAlt none parseAltNone parseUrlConst [plainTextPicture]).1.get? 0 =
      some plainTextPicture :=
  ⟨(decorateImagesFromAlt_skips_unparseable none parseAltNone parseUrlConst
      [plainTextPicture] (by decide)).1,
   (decorateImagesFromAlt_skips_unparseable none parseAltNone parseUrlConst
      [plainTextPicture] (by decide)).2 0 plainTextPicture (some "plain text")
      (by decide) (by decide) (Or.inl rfl)⟩

/-- A document picture with an inner img (alt `x`). -/
def goodPicture : DomNode := DomNode.rawPicture (some (some "x")) 1

/-- A document picture with no inner img. -/
def imglessPicture : DomNode := DomNode.rawPicture none 2

/-- A document picture after the img-less one in document order. -/
def tailPicture : DomNode := DomNode.rawPicture (some (some "y")) 3

/-- Witness for C10 at a concrete three-picture list: the pass processes the
first picture, throws on the img-less second, and leaves it and the third
untouched. -/
theorem decorateImagesFromAlt_throws_without_img_witness :
    decorateImagesFromAlt none parseAltNone parseUrlConst
        ([goodPicture] ++ imglessPicture :: [tailPicture]) =
      ((decorateImagesFromAlt none parseAltNone parseUrlConst [goodPicture]).1 ++
        imglessPicture :: [tailPicture], true) :=
  decorateImagesFromAlt_throws_without_img none parseAltNone parseUrlConst
    [goodPicture] imglessPicture [tailPicture] rfl (by decide)

/-! ### Claims C6 and C7: the block loader -/

/-- A block node: its `dataset.blockStatus` (`none` models an absent
attribute, i.e. an unloaded block) and its `dataset.blockName`. -/
structure Block where
  blockStatus : Option String
  blockName : String
  deriving DecidableEq, Repr

/-- The externally determined outcome of the two async branches started by
`loadBlock`: whether and when the stylesheet load settles (`loadCSS`
resolves or rejects), and whether the dynamic import or the invoked default
export threw (caught and logged inside `decorationComplete`, which always
resolves) and when that branch completes. -/
structure LoadOutcome where
  cssOk : Bool
  cssTime : Nat
  scriptFails : Bool
  scriptTime : Nat
  deriving DecidableEq, Repr

/-- The observable events of one `loadBlock` run, in order. -/
inductive BlockEvent where
  | setStatus (s : String)
  | decoratePass
  | startCss
  | startScript
  | logModuleFailure
  | logBlockFailure
  deriving DecidableEq, Repr

/-- The synchronous prefix of `loadBlock` (src/scripts/aem-assets.js:556-585
up to the first suspension point): the status gate, the `loading` status
write, the two synchronous decoration passes
(`decorateExternalImages`/`decorateImagesFromAlt`), and the starts of the
CSS load and of the script-module load.  In the single cooperative execution
context, a second caller can only observe the block after this prefix has
run. -/
def loadBlockStart (b : Block) : Block × List BlockEvent :=
  if b.blockStatus = some "loading" ∨ b.blockStatus = some "loaded" then
    (b, [])
  else
    ({ b with blockStatus := some "loading" },
     [BlockEvent.setStatus "loading", BlockEvent.decoratePass,
      BlockEvent.startCss, BlockEvent.startScript])

/-- `loadBlock(block)` (src/scripts/aem-assets.js:556-594) as a function of
the block and the async outcome.  `await Promise.all([cssLoaded,
decorationComplete])` settles at the max of the two completion times when
the CSS load succeeds, and at the CSS rejection time otherwise —
`Promise.all` rejects on the first rejection while `decorationComplete`
always resolves (the module failure is caught inside it and logged).  A CSS
rejection propagates to the outer catch, which logs it; in every case the
status is then set to `loaded`.  Returns the block, the event trace, and the
time of the `loaded` write. -/
def loadBlock (b : Block) (o : LoadOutcome) : Block × List BlockEvent × Nat :=
  if b.blockStatus = some "loading" ∨ b.blockStatus = some "loaded" then
    (b, [], 0)
  else
    ({ b with blockStatus := some "loaded" },
     (loadBlockStart b).2 ++
       (if o.scriptFails then [BlockEvent.logModuleFailure] else []) ++
       (if o.cssOk then [] else [BlockEvent.logBlockFailure]) ++
       [BlockEvent.setStatus "loaded"],
     if o.cssOk then max o.cssTime o.scriptTime else o.cssTime)

/-- Rank of a block status: any value other than `loading`/`loaded`
(including an absent attribute) counts as unloaded. -/
def statusRank (s : Option String) : Nat :=
  if s = some "loaded" then 2 else if s = some "loading" then 1 else 0

/-- Whether an event is the synchronous decoration pass. -/
def isDecorateEvent : BlockEvent → Bool
  | .decoratePass => true
  | _ => false

/-- Whether an event is the start of the script-module load/invocation. -/
def isStartScriptEvent : BlockEvent → Bool
  | .startScript => true
  | _ => false

/-- C6: `loadBlock` on a block already `loading` or `loaded` returns the
block as-is with an empty event trace (no decoration, CSS, or script work);
on a first call the very first event is the `loading` status write, and the
CSS/script starts come strictly after it; a second caller — who can observe
the block only after the first caller finished its synchronous prefix — is
always a no-op, so two callers perform at most one decoration pass and start
the script at most once; and the status rank never decreases. -/
theorem loadBlock_gating_invariants (b : Block) (o o2 : LoadOutcome) :
    ((b.blockStatus = some "loading" ∨ b.blockStatus = some "loaded") →
      loadBlock b o = (b, [], 0)) ∧
    (¬(b.blockStatus = some "loading" ∨ b.blockStatus = some "loaded") →
      (loadBlock b o).2.1.head? = some (BlockEvent.setStatus "loading") ∧
      BlockEvent.startCss ∈ (loadBlock b o).2.1.drop 1 ∧
      BlockEvent.startScript ∈ (loadBlock b o).2.1.drop 1) ∧
    (loadBlock (loadBlockStart b).1 o2 = ((loadBlockStart b).1, [], 0)) ∧
    (((loadBlock b o).2.1 ++ (loadBlock (loadBlockStart b).1 o2).2.1).countP
        isDecorateEvent ≤ 1 ∧
      ((loadBlock b o).2.1 ++ (loadBlock (loadBlockStart b).1 o2).2.1).countP
        isStartScriptEvent ≤ 1) ∧
    (statusRank b.blockStatus ≤ statusRank (loadBlock b o).1.blockStatus) := by
  obtain ⟨cssOk, cssTime, scriptFails, scriptTime⟩ := o
  by_cases hg : b.blockStatus = some "loading" ∨ b.blockStatus = some "loaded"
  · have h1 : loadBlock b
        { cssOk := cssOk, cssTime := cssTime,
          scriptFails := scriptFails, scriptTime := scriptTime } = (b, [], 0) := by
      simp [loadBlock, hg]
    have h2 : loadBlockStart b = (b, []) := by
      simp [loadBlockStart, hg]
    refine ⟨fun _ => h1, fun hng => absurd hg hng, ?_, ?_, ?_⟩
    · rw [h2]
      simp [loadBlock, hg]
    · rw [h1, h2]
      simp [loadBlock, hg]
    · rw [h1]
  · have h2 : loadBlockStart b = ({ b with blockStatus := some "loading" },
        [BlockEvent.setStatus "loading", BlockEvent.decoratePass,
         BlockEvent.startCss, BlockEvent.startScript]) := by
      simp [loadBlockStart, hg]
    have h3 : loadBlock ({ b with blockStatus := some "loading" } : Block) o2 =
        ({ b with blockStatus := some "loading" }, [], 0) := by
      simp [loadBlock]
    have h1 : loadBlock b
        { cssOk := cssOk, cssTime := cssTime,
          scriptFails := scriptFails, scriptTime := scriptTime } =
        ({ b with blockStatus := some "loaded" },
         (loadBlockStart b).2 ++
           (if scriptFails then [BlockEvent.logModuleFailure] else []) ++
           (if cssOk then [] else [BlockEvent.logBlockFailure]) ++
           [BlockEvent.setStatus "loaded"],
         if cssOk then max cssTime scriptTime else cssTime) := by
      simp [loadBlock, hg]
    refine ⟨fun hc => absurd hc hg, fun _ => ?_, ?_, ?_, ?_⟩
    · rw [h1, h2]
      refine ⟨rfl, ?_, ?_⟩ <;>
        cases scriptFails <;> cases cssOk <;> simp
    · rw [h2]
      exact h3
    · rw [h1, h2, h3]
      constructor <;>
        cases scriptFails <;> cases cssOk <;>
        simp [List.countP_append, List.countP_cons, isDecorateEvent, isStartScriptEvent]
    · rw [h1]
      have hb : statusRank b.blockStatus = 0 := by
        push_neg at hg
        simp [statusRank, hg.1, hg.2]
      rw [hb]
      exact Nat.zero_le _

/-- C7 (amended): on a first call, a script-module failure is caught and
logged and a CSS-load failure is caught and logged, and the block always
transitions to `loaded` — failure never prevents the transition; when the
CSS load succeeds the transition happens after both branches have settled
(at the max of the two completion times), but when the CSS load fails
`Promise.all` rejects at the CSS failure time, so the `loaded` write can
precede the completion of the script branch. -/
theorem loadBlock_failure_isolated (b : Block) (o : LoadOutcome)
    (hg : ¬(b.blockStatus = some "loading" ∨ b.blockStatus = some "loaded")) :
    ((loadBlock b o).1.blockStatus = some "loaded") ∧
    (o.scriptFails = true → BlockEvent.logModuleFailure ∈ (loadBlock b o).2.1) ∧
    (o.cssOk = false → BlockEvent.logBlockFailure ∈ (loadBlock b o).2.1) ∧
    (o.cssOk = true → (loadBlock b o).2.2 = max o.cssTime o.scriptTime) ∧
    (o.cssOk = false → (loadBlock b o).2.2 = o.cssTime) := by
  obtain ⟨cssOk, cssTime, scriptFails, scriptTime⟩ := o
  refine ⟨?_, ?_, ?_, ?_, ?_⟩ <;>
    simp only [loadBlock, loadBlockStart, if_neg hg] <;>
    intro h <;>
    subst h <;>
    simp

/-- An unloaded block (no `data-block-status` attribute). -/
def unloadedBlock : Block := { blockStatus := none, blockName := "hero" }

/-- A block already loaded. -/
def loadedBlock : Block := { blockStatus := some "loaded", blockName := "hero" }

/-- A successful outcome: CSS settles at 3, script at 4. -/
def okOutcome : LoadOutcome :=
  { cssOk := true, cssTime := 3, scriptFails := false, scriptTime := 4 }

/-- The CSS load fails immediately while the script branch only completes at
time 5. -/
def cssFailEarly : LoadOutcome :=
  { cssOk := false, cssTime := 0, scriptFails := false, scriptTime := 5 }

/-- C7 (counterexample to the claim as stated): with a CSS failure at time 0
and a script branch completing at time 5, the block is marked `loaded` at
time 0 — strictly before the script-load branch has completed — so the
`loaded` transition does not always wait for both branches. -/
theorem loadBlock_css_failure_early_loaded :
    (loadBlock unloadedBlock cssFailEarly).1.blockStatus = some "loaded" ∧
    (loadBlock unloadedBlock cssFailEarly).2.2 = 0 ∧
    (loadBlock unloadedBlock cssFailEarly).2.2 < cssFailEarly.scriptTime := by decide

/-- Witness for C6 at concrete blocks and outcomes. -/
theorem loadBlock_gating_invariants_witness :
    loadBlock loadedBlock okOutcome = (loadedBlock, [], 0) ∧
    (loadBlock unloadedBlock okOutcome).2.1.head? = some (BlockEvent.setStatus "loading") ∧
    ((loadBlock unloadedBlock okOutcome).2.1 ++
      (loadBlock (loadBlockStart unloadedBlock).1 okOutcome).2.1).countP
        isDecorateEvent ≤ 1 :=
  ⟨(loadBlock_gating_invariants loadedBlock okOutcome okOutcome).1 (Or.inr rfl),
   ((loadBlock_gating_invariants unloadedBlock okOutcome okOutcome).2.1 (by decide)).1,
   (loadBlock_gating_invariants unloadedBlock okOutcome okOutcome).2.2.2.1.1⟩

/-- Witness for the amended C7 at a concrete block and outcome. -/
theorem loadBlock_failure_isolated_witness :
    (loadBlock unloadedBlock cssFailEarly).1.blockStatus = some "loaded" ∧
    BlockEvent.logBlockFailure ∈ (loadBlock unloadedBlock cssFailEarly).2.1 ∧
    (loadBlock unloadedBlock cssFailEarly).2.2 = 0 :=
  ⟨(loadBlock_failure_isolated unloadedBlock cssFailEarly (by decide)).1,
   (loadBlock_failure_isolated unloadedBlock cssFailEarly (by decide)).2.2.1 rfl,
   (loadBlock_failure_isolated unloadedBlock cssFailEarly (by decide)).2.2.2.2 rfl⟩

end AemAssets
